import Mathlib

/-!
Shallow embedding of the segment-assembly core of the short-maker backend
(`src/app/utils.py` and `src/app/services/processing.py`).

Python floats are modelled as exact rationals (`ℚ`); Python dicts for
segments and words are modelled as structures whose optional keys
(`words`, `text`, per-word `start` / `end` read via `dict.get` with a
default) become `Option` fields; file-system and encoder side effects of
`cut_and_merge` are modelled as an explicit trace of `Effect` values.
-/

namespace ShortMaker

/-- A word record from the selector JSON, as read by
`generate_karaoke_ass_file` in `src/app/utils.py`.  The source accesses
the keys with `word_data.get('word', '')`, `word_data.get('start', ...)`
and `word_data.get('end', ...)`, so every field may be absent.
`stop?` embeds the source dict key `'end'` (`end` is reserved in Lean). -/
structure Word where
  word? : Option String
  start? : Option ℚ
  stop? : Option ℚ
deriving DecidableEq

/-- A narrative segment from the selector JSON, as consumed by
`cut_and_merge` (`src/app/services/processing.py`) and
`generate_karaoke_ass_file` (`src/app/utils.py`).  `start_sec` and
`end_sec` are accessed unconditionally (`ts["start_sec"]`,
`clip['start_sec']`); `text` is read via `clip.get('text', '')` and
`words` via `'words' not in clip or not clip['words']`, so both are
optional. -/
structure Segment where
  start_sec : ℚ
  end_sec : ℚ
  text? : Option String
  words? : Option (List Word)
deriving DecidableEq

/-- One `Dialogue:` event of the generated ASS karaoke track: the
`(window_start, window_end, karaoke_text)` triple that
`generate_karaoke_ass_file` formats into each emitted dialogue line. -/
structure Cue where
  start_sec : ℚ
  end_sec : ℚ
  text : String
deriving DecidableEq

/-! ### `src/app/utils.py`: `sanitize_json_string` / `parse_json_safely`

The sanitizer is embedded at the `List Char` level (Python strings are
sequences of code points).  Python's `str.isprintable` consults the full
Unicode database, so it is taken as a parameter `isprintable`; the facts
the proofs need about it (e.g. that U+FEFF is not printable) become
explicit hypotheses. -/

/-- Python regex `\s` (the character class used by the code-fence
pattern `^```(?:json)?\s*|```$`), restricted to its ASCII members. -/
def reSpace (c : Char) : Bool :=
  c = ' ' || c = '\t' || c = '\n' || c = '\r' || c = '\x0b' || c = '\x0c'

/-- Characters stripped by Python `str.strip()` with no argument,
restricted to the ASCII whitespace characters. -/
def pyIsSpace (c : Char) : Bool :=
  c = ' ' || c = '\t' || c = '\n' || c = '\r' || c = '\x0b' || c = '\x0c'

/-- One left-to-right pass of
`re.sub(r'^```(?:json)?\s*|```$', '', json_str, flags=re.MULTILINE)`:
at a line start, a ``` fence (optionally followed by `json`) and the
greedy whitespace run after it are deleted; elsewhere a ``` that sits at
a line end is deleted; all other characters are kept.  `prev` is the
character before the current position in the original string (`none` at
the very start); `fuel` bounds the recursion by the input length (every
step consumes at least one character). -/
def stripFencesGo : Nat → Option Char → List Char → List Char
  | 0, _, l => l
  | _ + 1, _, [] => []
  | fuel + 1, prev, '\x60' :: '\x60' :: '\x60' :: rest =>
    if prev = none ∨ prev = some '\n' then
      -- first alternative: `^```(?:json)?\s*`
      let rest2 := match rest with
        | 'j' :: 's' :: 'o' :: 'n' :: r => r
        | r => r
      let consumedWs := rest2.takeWhile reSpace
      let rest3 := rest2.dropWhile reSpace
      let lastConsumed := if consumedWs = [] then '\x60' else consumedWs.getLastD '\x60'
      stripFencesGo fuel (some lastConsumed) rest3
    else if rest = [] ∨ rest.head? = some '\n' then
      -- second alternative: ` ```$ ` (MULTILINE `$`: end of string or before `\n`)
      stripFencesGo fuel (some '\x60') rest
    else
      '\x60' :: stripFencesGo fuel (some '\x60') ('\x60' :: '\x60' :: rest)
  | fuel + 1, _, c :: rest => c :: stripFencesGo fuel (some c) rest

/-- `re.sub(r'^```(?:json)?\s*|```$', '', json_str, flags=re.MULTILINE)`. -/
def stripFences (l : List Char) : List Char :=
  stripFencesGo l.length none l

/-- `json_str.replace('`', '')`: for a one-character pattern, Python's
`str.replace` deletes every occurrence of that character. -/
def removeBackticks (l : List Char) : List Char :=
  l.filter (fun c => c ≠ '\x60')

/-- `''.join(char for char in json_str if char.isprintable() or char in '\n\r\t')`. -/
def filterPrintable (isprintable : Char → Bool) (l : List Char) : List Char :=
  l.filter (fun c => isprintable c || c = '\n' || c = '\r' || c = '\t')

/-- The BOM removal `if json_str.startswith(BOM): json_str = json_str[1:]`
where BOM is U+FEFF. -/
def dropBOM : List Char → List Char
  | [] => []
  | c :: rest => if c = '\uFEFF' then rest else c :: rest

/-- `json_str.strip()`: remove leading and trailing whitespace. -/
def pyStrip (l : List Char) : List Char :=
  ((l.dropWhile pyIsSpace).reverse.dropWhile pyIsSpace).reverse

/-- `sanitize_json_string` from `src/app/utils.py`: falsy (empty) input is
returned unchanged; otherwise markdown code fences, then all backticks,
then non-printable characters (except `\n`, `\r`, `\t`), then a leading
BOM are removed, and the result is stripped of surrounding whitespace. -/
def sanitize_json_string (isprintable : Char → Bool) (s : String) : String :=
  if s = "" then s
  else String.mk (pyStrip (dropBOM (filterPrintable isprintable (removeBackticks (stripFences s.data)))))

/-- `parse_json_safely` from `src/app/utils.py`.  `json.loads` is an
external library call, modelled as a parameter `loads` returning `none`
on a parse error (the source catches `JSONDecodeError` — and any other
exception — and returns `None`).  Falsy (empty) input short-circuits to
`None` before `loads` is ever consulted. -/
def parse_json_safely {α : Type} (isprintable : Char → Bool)
    (loads : String → Option α) (s : String) : Option α :=
  if s = "" then none
  else loads (sanitize_json_string isprintable s)

/-! ### `src/app/utils.py`: `generate_karaoke_ass_file` -/

/-- Python `int()` applied to a float/rational: truncation toward zero. -/
def pyInt (q : ℚ) : ℤ :=
  if 0 ≤ q then ⌊q⌋ else -⌊-q⌋

/-- `duration_cs = int((word_end - word_start) * 100)`: the per-word
karaoke highlight duration in centiseconds. -/
def duration_cs (word_start word_stop : ℚ) : ℤ :=
  pyInt ((word_stop - word_start) * 100)

/-- The karaoke fragment the source appends for one word:
`f"{{\\k{duration_cs}}}{word}"`, with the word's missing `start` / `end`
keys defaulting to the window's start / end as in the source. -/
def wordTag (window_start window_stop : ℚ) (w : Word) : String :=
  "\x7b\\k" ++ toString (duration_cs (w.start?.getD window_start) (w.stop?.getD window_stop)) ++ "\x7d"
    ++ w.word?.getD ""

/-- The karaoke text of one window: word tags joined by single spaces
(a space after every word except the last, as in the source loop). -/
def karaokeText (window_start window_stop : ℚ) : List Word → String
  | [] => ""
  | [w] => wordTag window_start window_stop w
  | w :: w2 :: rest => wordTag window_start window_stop w ++ " " ++ karaokeText window_start window_stop (w2 :: rest)

/-- `window_start = window_words[0].get('start', clip['start_sec'])`. -/
def windowStart (clip : Segment) : List Word → ℚ
  | [] => clip.start_sec
  | w :: _ => w.start?.getD clip.start_sec

/-- `window_end = window_words[-1].get('end', clip['end_sec'])`. -/
def windowEnd (clip : Segment) : List Word → ℚ
  | [] => clip.end_sec
  | [w] => w.stop?.getD clip.end_sec
  | _ :: w2 :: rest => windowEnd clip (w2 :: rest)

/-- The dialogue event emitted for one window of words. -/
def cueOf (clip : Segment) (window : List Word) : Cue :=
  { start_sec := windowStart clip window
    end_sec := windowEnd clip window
    text := karaokeText (windowStart clip window) (windowEnd clip window) window }

/-- The `while i < len(words)` loop of `generate_karaoke_ass_file`:
`window_words = words[i:i+window_size]` with `window_size = 3` and
`i += window_size`, one dialogue event per window. -/
def windowCues (clip : Segment) : List Word → List Cue
  | [] => []
  | [w1] => [cueOf clip [w1]]
  | [w1, w2] => [cueOf clip [w1, w2]]
  | w1 :: w2 :: w3 :: rest => cueOf clip [w1, w2, w3] :: windowCues clip rest

/-- The windows `words[0:3], words[3:6], ...` themselves (the same
partition `windowCues` walks). -/
def windows3 {α : Type} : List α → List (List α)
  | [] => []
  | [a] => [[a]]
  | [a, b] => [[a, b]]
  | a :: b :: c :: rest => [a, b, c] :: windows3 rest

/-- The dialogue events generated for one segment: the fallback single
plain-text cue when `'words' not in clip or not clip['words']`
(text read via `clip.get('text', '')` with newlines replaced by
spaces), else one cue per 3-word window. -/
def clipCues (clip : Segment) : List Cue :=
  match clip.words? with
  | none =>
    [{ start_sec := clip.start_sec, end_sec := clip.end_sec,
       text := String.mk (((clip.text?.getD "").data).map (fun c => if c = '\n' then ' ' else c)) }]
  | some [] =>
    [{ start_sec := clip.start_sec, end_sec := clip.end_sec,
       text := String.mk (((clip.text?.getD "").data).map (fun c => if c = '\n' then ' ' else c)) }]
  | some ws => windowCues clip ws

/-- The full dialogue-event list of the ASS file written by
`generate_karaoke_ass_file`: the segments' cue lists in order.  Note the
cue times are the segments' / words' *absolute* source-timeline times;
the generator applies no per-segment shift. -/
def generate_karaoke_ass_file (timestamps : List Segment) : List Cue :=
  (timestamps.map clipCues).flatten

/-! ### `src/app/services/processing.py`: `cut_and_merge` -/

/-- One `xfade` + `acrossfade` stage of the `filter_complex` chain built
in the multi-clip branch of `cut_and_merge`: the labels of the two video
inputs, the two audio inputs, the two outputs, and the stage's
transition duration and video offset. -/
structure XfadeStage where
  prevV : String
  nextV : String
  prevA : String
  nextA : String
  outV : String
  outA : String
  duration : ℚ
  offset : ℚ
deriving DecidableEq, Inhabited

/-- The `for i in range(1, len(clip_names))` loop of `cut_and_merge`:
`N` is the clip count, `t` the transition duration, `i` the loop index,
`prevV`/`prevA` the labels of the running merge, `curr` the
`current_offset`; the remaining list holds `durations[i:]`.  Each stage
is emitted with the current offset, after which
`current_offset += durations[i] - trans_dur`. -/
def goStages (N : Nat) (t : ℚ) : Nat → String → String → ℚ → List ℚ → List XfadeStage
  | _, _, _, _, [] => []
  | i, prevV, prevA, curr, d :: rest =>
    let outV := if i < N - 1 then "v" ++ toString i else "outv"
    let outA := if i < N - 1 then "a" ++ toString i else "outa"
    { prevV := prevV, nextV := toString i ++ ":v",
      prevA := prevA, nextA := toString i ++ ":a",
      outV := outV, outA := outA, duration := t, offset := curr }
      :: goStages N t (i + 1) outV outA (curr + (d - t)) rest

/-- The whole transition chain: `prev_v = "0:v"`, `prev_a = "0:a"`,
`current_offset = durations[0] - trans_dur`, then the loop above over
`durations[1:]`. -/
def buildStages (durations : List ℚ) (t : ℚ) : List XfadeStage :=
  match durations with
  | [] => []
  | d0 :: rest => goStages durations.length t 1 "0:v" "0:a" (d0 - t) rest

/-- Python `min(list)` as a left fold (the empty case, on which Python
raises `ValueError`, is given the junk value 0 and is never reached:
`cut_and_merge` only calls it with a nonempty `durations`). -/
def pyMin : List ℚ → ℚ
  | [] => 0
  | d :: rest => rest.foldl min d

/-- `trans_dur = min(0.75, min_dur / 2.1)` from the multi-clip branch of
`cut_and_merge`. -/
def trans_dur (durations : List ℚ) : ℚ :=
  min 0.75 (pyMin durations / 2.1)

/-- One external `ffmpeg` invocation issued by `cut_and_merge`:
`extract` is the per-segment trim(`-ss start -to end`)/crop/ASS-burn
re-encode, `copy` the single-clip `-c copy` stream copy (no re-encode),
`xfadeMerge` the multi-clip `filter_complex` crossfade encode. -/
inductive FfmpegCall where
  | extract (input : String) (start_sec end_sec : ℚ) (ass_file : String) (out : String)
  | copy (input : String) (out : String)
  | xfadeMerge (stages : List XfadeStage) (out : String)
deriving DecidableEq

/-- A file-system / subprocess side effect of `cut_and_merge`, in
program order. -/
inductive Effect where
  | mkdir (path : String)
  | writeAss (path : String) (track : List Cue)
  | runFfmpeg (call : FfmpegCall)
deriving DecidableEq

/-- How one call to `cut_and_merge` ends.  Every `subprocess.run` in the
source passes `check=True`, so a non-zero encoder exit raises
`subprocess.CalledProcessError`, which `cut_and_merge` does not catch:
the run either returns a value (`ret`) or propagates the exception of
the failed invocation (`raised`). -/
inductive RunResult where
  | ret (value : Option String)
  | raised (call : FfmpegCall)
deriving DecidableEq

/-- The Python argument passed as `timestamps`: either an actual list of
segment dicts or some non-list value (with its truthiness). -/
inductive TimestampsArg where
  | pylist (l : List Segment)
  | notAList (truthy : Bool)
deriving DecidableEq

/-- The guard `not timestamps or not isinstance(timestamps, list)`:
true for an empty list, and for every non-list value (a falsy non-list
fails `not timestamps`, a truthy non-list fails the `isinstance`
check). -/
def invalidTimestamps : TimestampsArg → Bool
  | .pylist l => l.isEmpty
  | .notAList _ => true

/-- The `ffmpeg` trim/crop/subtitle-burn invocation issued for segment
`ts` (1-based index `i`), writing `clips/clip_{i}.mp4`.  The source
computes `subtitle_offset = ts["start_sec"]` just before this call and
never uses it: the burned ASS file is the one generated from the
absolute timestamps, unshifted. -/
def extractCall (input_video ass_file clips_dir : String) (i : Nat) (ts : Segment) : FfmpegCall :=
  .extract input_video ts.start_sec ts.end_sec ass_file
    (clips_dir ++ "/clip_" ++ toString i ++ ".mp4")

/-- The `for i, ts in enumerate(timestamps, start=1)` extraction loop.
`ffmpegOk` models the external encoder's exit status for a given
invocation.  Each iteration runs `subprocess.run(..., check=True)`: on a
zero exit the loop continues; on a non-zero exit `CalledProcessError`
is raised and the loop stops at that call.  Returns the failing call
(if any) and the effects performed up to and including it. -/
def runExtractLoop (ffmpegOk : FfmpegCall → Bool) (input_video ass_file clips_dir : String) :
    Nat → List Segment → Option FfmpegCall × List Effect
  | _, [] => (none, [])
  | i, ts :: rest =>
    let call := extractCall input_video ass_file clips_dir i ts
    if ffmpegOk call then
      let r := runExtractLoop ffmpegOk input_video ass_file clips_dir (i + 1) rest
      (r.1, Effect.runFfmpeg call :: r.2)
    else
      (some call, [Effect.runFfmpeg call])

/-- `cut_and_merge(input_video, timestamps, output_name)` from
`src/app/services/processing.py`, as a pure function from its inputs
(plus the ambient file-system predicate `fs_exists` modelling
`os.path.exists`, the external encoder's exit behaviour `ffmpegOk`, and
the fresh `session_id` drawn from `uuid.uuid4()`) to its outcome and
the ordered trace of its side effects.
Early returns: missing input video, or an empty / non-list `timestamps`,
yield `None` with no side effects.  Otherwise: the session and clips
directories are created, the karaoke ASS track (absolute times) is
written, and each segment is extracted; since every `subprocess.run`
passes `check=True`, the first failing invocation raises
`CalledProcessError` (`RunResult.raised`) and nothing after it runs.
If all extractions succeed, a single clip is stream-copied while two or
more clips are crossfade-merged with
`trans_dur = min(0.75, min(durations) / 2.1)`; that final invocation
can likewise fail and raise. -/
def cutAndMerge (fs_exists : String → Bool) (ffmpegOk : FfmpegCall → Bool)
    (input_video : String) (timestamps : TimestampsArg)
    (session_id output_name : String) :
    RunResult × List Effect :=
  if fs_exists input_video = false then (.ret none, [])
  else if invalidTimestamps timestamps = true then (.ret none, [])
  else
    match timestamps with
    | .notAList _ => (.ret none, [])
    | .pylist l =>
      let work_dir := "session_" ++ session_id
      let clips_dir := work_dir ++ "/clips"
      let ass_file := work_dir ++ "/subtitles.ass"
      let output_path := work_dir ++ "/" ++ output_name
      let durations := l.map (fun ts => ts.end_sec - ts.start_sec)
      let pre := [Effect.mkdir work_dir, Effect.mkdir clips_dir,
        Effect.writeAss ass_file (generate_karaoke_ass_file l)]
      let ext := runExtractLoop ffmpegOk input_video ass_file clips_dir 1 l
      match ext.1 with
      | some call => (.raised call, pre ++ ext.2)
      | none =>
        let mergeCall : FfmpegCall :=
          match l with
          | [_] => .copy (clips_dir ++ "/clip_1.mp4") output_path
          | _ => .xfadeMerge (buildStages durations (trans_dur durations)) output_path
        if ffmpegOk mergeCall then
          (.ret (some output_path), pre ++ ext.2 ++ [Effect.runFfmpeg mergeCall])
        else
          (.raised mergeCall, pre ++ ext.2 ++ [Effect.runFfmpeg mergeCall])

/-- ffmpeg's documented behaviour on the trim invocation: an extraction
whose `-to` value is not greater than its `-ss` value aborts with a
non-zero exit ("-to value smaller than -ss"); the other invocations of
the runs considered here succeed. -/
def ffmpegRejectsInvertedTrim : FfmpegCall → Bool
  | .extract _ start_sec end_sec _ _ => decide (start_sec < end_sec)
  | _ => true

/-! ### Interface definitions used by the statements below -/

/-- A word record that actually carries word-level timing (both the
`start` and the `end` key are present). -/
def timed (w : Word) : Bool :=
  w.start?.isSome && w.stop?.isSome

/-- The ordering the data model (spec section 3) imposes on a segment's
word sequence: start times are monotonically non-decreasing.  Times are
extracted with `getD 0`, which for timed words is the actual time. -/
def startLe (a b : Word) : Prop :=
  a.start?.getD 0 ≤ b.start?.getD 0

instance (a b : Word) : Decidable (startLe a b) := by
  unfold startLe; infer_instance

/-- The analogous ordering on word end times.  The data model does NOT
impose it; it is the extra assumption under which the generated cue end
times are monotone. -/
def stopLe (a b : Word) : Prop :=
  a.stop?.getD 0 ≤ b.stop?.getD 0

instance (a b : Word) : Decidable (stopLe a b) := by
  unfold stopLe; infer_instance

/-- Duration of the chained crossfade output, per ffmpeg `xfade`
semantics: each stage's output lasts `offset + duration(second input)`,
so after the final stage the output lasts the final stage's offset plus
the last clip's duration. -/
def chainOutputDuration (durations : List ℚ) (t : ℚ) : ℚ :=
  ((buildStages durations t).map XfadeStage.offset).getLastD 0 + durations.getLastD 0

/-- Concrete word-timed input used by witnesses: four words with
consecutive one-second timings. -/
def sampleWords : List Word :=
  [{ word? := some "a", start? := some 0, stop? := some 1 },
   { word? := some "b", start? := some 1, stop? := some 2 },
   { word? := some "c", start? := some 2, stop? := some 3 },
   { word? := some "d", start? := some 3, stop? := some 4 }]

/-- Concrete segment carrying `sampleWords`, used by witnesses. -/
def sampleClip : Segment :=
  { start_sec := 0, end_sec := 4, text? := some "a b c d", words? := some sampleWords }

/-- Concrete word-timed input whose start times are non-decreasing (the
data-model invariant) but whose end times are not: the third word ends
at 9, after the fourth word's end at 4. -/
def sampleWordsBad : List Word :=
  [{ word? := some "a", start? := some 0, stop? := some 1 },
   { word? := some "b", start? := some 1, stop? := some 2 },
   { word? := some "c", start? := some 2, stop? := some 9 },
   { word? := some "d", start? := some 3, stop? := some 4 }]

/-- Concrete segment carrying `sampleWordsBad` (all word times inside
`[0, 9]`). -/
def sampleClipBad : Segment :=
  { start_sec := 0, end_sec := 9, text? := some "a b c d", words? := some sampleWordsBad }

/-! ### Helper lemmas -/

theorem foldl_min_pos : ∀ (l : List ℚ) (d : ℚ), 0 < d → (∀ x ∈ l, 0 < x) → 0 < l.foldl min d
  | [], _, hd, _ => hd
  | x :: l, d, hd, hl => by
    simp only [List.foldl_cons]
    exact foldl_min_pos l (min d x) (lt_min hd (hl x (by simp)))
      (fun y hy => hl y (by simp [hy]))

theorem pyMin_pos (l : List ℚ) (hne : l ≠ []) (hpos : ∀ x ∈ l, 0 < x) : 0 < pyMin l := by
  match l with
  | [] => exact absurd rfl hne
  | d :: rest =>
    exact foldl_min_pos rest d (hpos d (by simp)) (fun y hy => hpos y (by simp [hy]))

/-! ### C4: transition duration -/

/-- C4: for every non-empty list of positive clip durations, the merge
engine's transition duration equals `min(0.75, min(clip_durations) / 2.1)`
(the exact expression computed in `cut_and_merge`), and this value is
strictly less than half the minimum clip duration. -/
theorem trans_dur_law (durations : List ℚ) (hne : durations ≠ [])
    (hpos : ∀ d ∈ durations, 0 < d) :
    trans_dur durations = min 0.75 (pyMin durations / 2.1) ∧
    trans_dur durations < pyMin durations / 2 := by
  refine ⟨rfl, ?_⟩
  have hm : 0 < pyMin durations := pyMin_pos durations hne hpos
  have h1 : trans_dur durations ≤ pyMin durations / 2.1 := min_le_right _ _
  have h2 : pyMin durations / 2.1 < pyMin durations / 2 := by
    rw [div_lt_div_iff₀ (by norm_num) (by norm_num)]
    nlinarith
  exact lt_of_le_of_lt h1 h2

/-- C4 witness: for clip durations `[1]`, the transition duration is
`min(0.75, 1/2.1) = 10/21 ≈ 0.476 < 1/2`. -/
theorem trans_dur_law_witness :
    (trans_dur [1] = min 0.75 (pyMin [1] / 2.1) ∧ trans_dur [1] < pyMin [1] / 2) ∧
    trans_dur [1] = 10 / 21 :=
  ⟨trans_dur_law [1] (by simp) (by intro d hd; simp at hd; simp [hd]),
   by norm_num [trans_dur, pyMin]⟩

/-! ### C6: centisecond highlight durations are floor-truncated -/

/-- C6: for every word-timed word in a rendered caption window, the
highlight duration embedded in that word's karaoke tag equals
`floor((word_end - word_start) * 100)` centiseconds (for a
non-negatively-sized word, Python's `int()` truncation is exactly the
floor). -/
theorem highlight_duration_floor (window_start window_stop s e : ℚ) (w : Word)
    (h1 : w.start? = some s) (h2 : w.stop? = some e) (h3 : s ≤ e) :
    duration_cs s e = ⌊(e - s) * 100⌋ ∧
    wordTag window_start window_stop w =
      "\x7b\\k" ++ toString ⌊(e - s) * 100⌋ ++ "\x7d" ++ w.word?.getD "" := by
  have hd : duration_cs s e = ⌊(e - s) * 100⌋ := by
    unfold duration_cs pyInt
    rw [if_pos (by nlinarith)]
  refine ⟨hd, ?_⟩
  unfold wordTag
  rw [h1, h2]
  simp only [Option.getD_some]
  rw [hd]

/-- C6 witness: a word spanning `[10.333, 10.866]` gets highlight
duration `53` centiseconds (truncation of 53.3, not rounding to 54). -/
theorem highlight_duration_floor_witness :
    (duration_cs 10.333 10.866 = ⌊((10.866 : ℚ) - 10.333) * 100⌋ ∧
      wordTag 10 16 ⟨some "word", some 10.333, some 10.866⟩ =
        "\x7b\\k" ++ toString ⌊((10.866 : ℚ) - 10.333) * 100⌋ ++ "\x7d"
          ++ (Word.word? ⟨some "word", some 10.333, some 10.866⟩).getD "") ∧
    duration_cs 10.333 10.866 = 53 :=
  ⟨highlight_duration_floor 10 16 10.333 10.866 ⟨some "word", some 10.333, some 10.866⟩
      rfl rfl (by norm_num),
   by norm_num [duration_cs, pyInt]⟩

/-! ### C10: early-return error path of `cut_and_merge` -/

/-- C10: when the input video does not exist, or the timestamps argument
is empty or not a list, `cut_and_merge` returns `None` having performed
no side effect: no directory is created, no subtitle or clip file is
written, and the external encoder is never invoked. -/
theorem invalid_input_no_effects (fs_exists : String → Bool) (ffmpegOk : FfmpegCall → Bool)
    (input_video : String) (timestamps : TimestampsArg) (session_id output_name : String)
    (h : fs_exists input_video = false ∨ invalidTimestamps timestamps = true) :
    cutAndMerge fs_exists ffmpegOk input_video timestamps session_id output_name =
      (.ret none, []) := by
  rcases h with h | h
  · simp [cutAndMerge, h]
  · simp [cutAndMerge, h]

/-- C10 witness: an existing video but an empty timestamps list yields
`None` with an empty effect trace. -/
theorem invalid_input_no_effects_witness :
    cutAndMerge (fun _ => true) (fun _ => true) "video.mp4" (.pylist []) "sid" "out.mp4" =
      (.ret none, []) :=
  invalid_input_no_effects (fun _ => true) (fun _ => true) "video.mp4" (.pylist [])
    "sid" "out.mp4" (Or.inr rfl)

/-! ### C9: fallback cue for a segment without word-level timing -/

/-- C9: a segment with no word-level timing (`words` absent or empty)
produces exactly one cue spanning `[start_sec, end_sec]` whose text is
the plain segment text (newlines normalised to spaces, as the source's
`.replace('\n', ' ')` does) with no karaoke highlighting applied. -/
theorem plain_cue_no_words (clip : Segment)
    (h : clip.words? = none ∨ clip.words? = some []) :
    clipCues clip =
      [{ start_sec := clip.start_sec, end_sec := clip.end_sec,
         text := String.mk (((clip.text?.getD "").data).map
           (fun c => if c = '\n' then ' ' else c)) }] := by
  rcases h with h | h <;> simp [clipCues, h]

/-- C9 witness: a wordless segment `[2, 5]` with text `"hi\nthere"`
yields the single plain cue `(2, 5, "hi there")`. -/
theorem plain_cue_no_words_witness :
    clipCues ⟨2, 5, some "hi\nthere", none⟩ =
      [{ start_sec := 2, end_sec := 5, text := "hi there" }] := by
  rw [plain_cue_no_words ⟨2, 5, some "hi\nthere", none⟩ (Or.inl rfl)]
  rfl

/-! ### C7: single-clip runs are stream-copied, no transition graph -/

/-- C7: a run whose segment list yields exactly one clip builds no
transition graph: the whole effect trace consists of the two directory
creations, the subtitle write, the single extraction, and a `-c copy`
stream copy (no re-encode) of that clip to the output path; no
`xfade` merge invocation occurs. -/
theorem single_clip_copy (fs_exists : String → Bool) (ffmpegOk : FfmpegCall → Bool)
    (input_video : String) (s : Segment)
    (session_id output_name : String) (h : fs_exists input_video = true)
    (hok : ∀ c, ffmpegOk c = true) :
    cutAndMerge fs_exists ffmpegOk input_video (.pylist [s]) session_id output_name =
      (.ret (some ("session_" ++ session_id ++ "/" ++ output_name)),
       [Effect.mkdir ("session_" ++ session_id),
        Effect.mkdir ("session_" ++ session_id ++ "/clips"),
        Effect.writeAss ("session_" ++ session_id ++ "/subtitles.ass")
          (generate_karaoke_ass_file [s]),
        Effect.runFfmpeg (.extract input_video s.start_sec s.end_sec
          ("session_" ++ session_id ++ "/subtitles.ass")
          ("session_" ++ session_id ++ "/clips/clip_1.mp4")),
        Effect.runFfmpeg (.copy ("session_" ++ session_id ++ "/clips/clip_1.mp4")
          ("session_" ++ session_id ++ "/" ++ output_name))]) ∧
    ∀ stages p, Effect.runFfmpeg (.xfadeMerge stages p) ∉
      (cutAndMerge fs_exists ffmpegOk input_video (.pylist [s]) session_id output_name).2 := by
  have heq : cutAndMerge fs_exists ffmpegOk input_video (.pylist [s]) session_id output_name =
      (.ret (some ("session_" ++ session_id ++ "/" ++ output_name)),
       [Effect.mkdir ("session_" ++ session_id),
        Effect.mkdir ("session_" ++ session_id ++ "/clips"),
        Effect.writeAss ("session_" ++ session_id ++ "/subtitles.ass")
          (generate_karaoke_ass_file [s]),
        Effect.runFfmpeg (.extract input_video s.start_sec s.end_sec
          ("session_" ++ session_id ++ "/subtitles.ass")
          ("session_" ++ session_id ++ "/clips/clip_1.mp4")),
        Effect.runFfmpeg (.copy ("session_" ++ session_id ++ "/clips/clip_1.mp4")
          ("session_" ++ session_id ++ "/" ++ output_name))]) := by
    simp [cutAndMerge, h, invalidTimestamps, runExtractLoop, extractCall, hok]
    refine ⟨?_, ?_⟩ <;> (simp only [String.append_assoc]; congr 1)
  refine ⟨heq, ?_⟩
  rw [heq]
  intro stages p
  simp

/-- C7 witness: a concrete single-segment run (all encoder invocations
succeeding) returns the output path and its trace contains no crossfade
merge invocation. -/
theorem single_clip_copy_witness :
    (cutAndMerge (fun _ => true) (fun _ => true) "in.mp4"
        (.pylist [{ start_sec := 0, end_sec := 2, text? := none, words? := none }])
        "S" "o.mp4").1 = .ret (some "session_S/o.mp4") ∧
    ∀ stages p, Effect.runFfmpeg (.xfadeMerge stages p) ∉
      (cutAndMerge (fun _ => true) (fun _ => true) "in.mp4"
        (.pylist [{ start_sec := 0, end_sec := 2, text? := none, words? := none }])
        "S" "o.mp4").2 := by
  have h := single_clip_copy (fun _ => true) (fun _ => true) "in.mp4"
    { start_sec := 0, end_sec := 2, text? := none, words? := none } "S" "o.mp4" rfl
    (fun _ => rfl)
  exact ⟨by rw [h.1]; decide, h.2⟩

/-! ### C2: crossfade offset accumulation law -/

theorem goStages_length (N : Nat) (t : ℚ) :
    ∀ (rest : List ℚ) (i : Nat) (pv pa : String) (curr : ℚ),
      (goStages N t i pv pa curr rest).length = rest.length
  | [], _, _, _, _ => rfl
  | _ :: rest, i, _, _, _ => by
    simp only [goStages, List.length_cons]
    rw [goStages_length N t rest (i + 1)]

theorem goStages_offset (N : Nat) (t : ℚ) :
    ∀ (rest : List ℚ) (i : Nat) (pv pa : String) (curr : ℚ) (k : Nat), k < rest.length →
      ((goStages N t i pv pa curr rest).map XfadeStage.offset).getD k 0 =
        curr + (rest.take k).sum - k * t
  | [], _, _, _, _, k, hk => by simp at hk
  | d :: rest, i, pv, pa, curr, 0, _ => by
    simp [goStages]
  | d :: rest, i, pv, pa, curr, k + 1, hk => by
    simp only [goStages, List.map_cons, List.getD_cons_succ]
    rw [goStages_offset N t rest (i + 1) _ _ _ k (by simpa using hk)]
    rw [List.take_succ_cons, List.sum_cons]
    push_cast
    ring

theorem goStages_head_prevV (N : Nat) (t : ℚ) (d : ℚ) (rest : List ℚ) (i : Nat)
    (pv pa : String) (curr : ℚ) :
    ((goStages N t i pv pa curr (d :: rest)).getD 0 default).prevV = pv := by
  simp [goStages]

theorem goStages_chain (N : Nat) (t : ℚ) :
    ∀ (rest : List ℚ) (i : Nat) (pv pa : String) (curr : ℚ) (k : Nat), k + 1 < rest.length →
      ((goStages N t i pv pa curr rest).getD (k + 1) default).prevV =
        ((goStages N t i pv pa curr rest).getD k default).outV
  | [], _, _, _, _, k, hk => by simp at hk
  | [_], _, _, _, _, k, hk => by simp at hk
  | _ :: _ :: _, _, _, _, _, 0, _ => by
    simp [goStages]
  | d :: d2 :: rest, i, pv, pa, curr, k + 1, hk => by
    simp only [goStages, List.getD_cons_succ]
    exact goStages_chain N t (d2 :: rest) (i + 1) _ _ _ k (by simpa using hk)

theorem goStages_nextV (N : Nat) (t : ℚ) :
    ∀ (rest : List ℚ) (i : Nat) (pv pa : String) (curr : ℚ) (k : Nat), k < rest.length →
      ((goStages N t i pv pa curr rest).getD k default).nextV = toString (i + k) ++ ":v"
  | [], _, _, _, _, k, hk => by simp at hk
  | d :: rest, i, pv, pa, curr, 0, _ => by simp [goStages]
  | d :: rest, i, pv, pa, curr, k + 1, hk => by
    simp only [goStages, List.getD_cons_succ]
    rw [goStages_nextV N t rest (i + 1) _ _ _ k (by simpa using hk)]
    rw [show i + 1 + k = i + (k + 1) from by omega]

theorem getLastD_eq_getD {α : Type} (l : List α) (d : α) :
    l.getLastD d = l.getD (l.length - 1) d := by
  rw [List.getLastD_eq_getLast?, List.getLast?_eq_getElem?, List.getD_eq_getElem?_getD]

theorem sum_take_last (l : List ℚ) (hne : l ≠ []) :
    (l.take (l.length - 1)).sum + l.getD (l.length - 1) 0 = l.sum := by
  have hlt : l.length - 1 < l.length := by
    cases l with
    | nil => exact absurd rfl hne
    | cons a l => simp
  rw [List.getD_eq_getElem l 0 hlt]
  have hdrop : l.drop (l.length - 1) = [l[l.length - 1]] := by
    rw [List.drop_eq_getElem_cons hlt]
    rw [show l.length - 1 + 1 = l.length from by omega, List.drop_length]
  have hsum := List.sum_take_add_sum_drop l (l.length - 1)
  rw [hdrop] at hsum
  simpa using hsum

/-- C2: for N >= 2 clips the merge engine emits exactly N-1 chained
pairwise transitions — the first consumes the raw first clip (`0:v`),
transition k+1 consumes transition k's output, and transition k's second
input is raw clip k+1 — where the offset of transition k (0-indexed)
equals `sum of the first k+1 durations − (k+1) × trans_dur` (the running
offset starts at `d_1 − trans_dur` and advances by `d_{i+1} − trans_dur`),
so the chained output duration is `sum(durations) − (N−1) × trans_dur`. -/
theorem xfade_offset_law (durations : List ℚ) (t : ℚ) (h : 2 ≤ durations.length) :
    (buildStages durations t).length = durations.length - 1 ∧
    ((buildStages durations t).getD 0 default).prevV = "0:v" ∧
    (∀ k, k < durations.length - 1 →
      ((buildStages durations t).getD k default).nextV = toString (k + 1) ++ ":v") ∧
    (∀ k, k + 1 < durations.length - 1 →
      ((buildStages durations t).getD (k + 1) default).prevV =
        ((buildStages durations t).getD k default).outV) ∧
    (∀ k, k < durations.length - 1 →
      ((buildStages durations t).map XfadeStage.offset).getD k 0 =
        (durations.take (k + 1)).sum - ((k : ℚ) + 1) * t) ∧
    chainOutputDuration durations t = durations.sum - ((durations.length : ℚ) - 1) * t := by
  obtain ⟨d0, rest, rfl⟩ : ∃ d0 rest, durations = d0 :: rest := by
    cases durations with
    | nil => simp at h
    | cons a l => exact ⟨a, l, rfl⟩
  obtain ⟨r1, rest', rfl⟩ : ∃ r1 rest', rest = r1 :: rest' := by
    cases rest with
    | nil => simp at h
    | cons a l => exact ⟨a, l, rfl⟩
  refine ⟨?_, ?_, ?_, ?_, ?_, ?_⟩
  · simp only [buildStages]
    rw [goStages_length]
    simp
  · simp only [buildStages]
    exact goStages_head_prevV _ _ _ _ _ _ _ _
  · intro k hk
    simp only [buildStages]
    rw [goStages_nextV _ _ (r1 :: rest') 1 _ _ _ k (by simp at hk ⊢; omega)]
    rw [show 1 + k = k + 1 from by omega]
  · intro k hk
    simp only [buildStages]
    exact goStages_chain _ _ (r1 :: rest') 1 _ _ _ k (by simp at hk ⊢; omega)
  · intro k hk
    simp only [buildStages]
    rw [goStages_offset _ _ (r1 :: rest') 1 _ _ _ k (by simp at hk ⊢; omega)]
    rw [List.take_succ_cons, List.sum_cons]
    ring
  · unfold chainOutputDuration
    simp only [buildStages]
    have hlen : ((goStages (d0 :: r1 :: rest').length t 1 "0:v" "0:a" (d0 - t)
        (r1 :: rest')).map XfadeStage.offset).length = (r1 :: rest').length := by
      rw [List.length_map, goStages_length]
    rw [getLastD_eq_getD, getLastD_eq_getD, hlen]
    rw [goStages_offset _ _ (r1 :: rest') 1 _ _ _ ((r1 :: rest').length - 1) (by simp)]
    rw [show (d0 :: r1 :: rest').length - 1 = ((r1 :: rest').length - 1) + 1 from by simp]
    rw [List.getD_cons_succ]
    have hs := sum_take_last (r1 :: rest') (by simp)
    have htake : ((r1 :: rest').take ((r1 :: rest').length - 1)).sum =
        (r1 :: rest').sum - (r1 :: rest').getD ((r1 :: rest').length - 1) 0 := by
      linarith [hs]
    rw [htake]
    simp only [List.length_cons, List.sum_cons, Nat.add_sub_cancel]
    push_cast
    ring

/-- C2 witness: for durations `[5, 6, 4]` and transition duration 0.75,
the two emitted offsets are 4.25 and 9.5 and the chained output lasts
13.5 seconds, matching the general offset law. -/
theorem xfade_offset_law_witness :
    ((buildStages [5, 6, 4] 0.75).map XfadeStage.offset = [4.25, 9.5] ∧
      chainOutputDuration [5, 6, 4] 0.75 = 13.5) ∧
    ((buildStages [5, 6, 4] 0.75).length = [(5 : ℚ), 6, 4].length - 1 ∧
      ((buildStages [5, 6, 4] 0.75).getD 0 default).prevV = "0:v" ∧
      (∀ k, k < [(5 : ℚ), 6, 4].length - 1 →
        ((buildStages [5, 6, 4] 0.75).getD k default).nextV = toString (k + 1) ++ ":v") ∧
      (∀ k, k + 1 < [(5 : ℚ), 6, 4].length - 1 →
        ((buildStages [5, 6, 4] 0.75).getD (k + 1) default).prevV =
          ((buildStages [5, 6, 4] 0.75).getD k default).outV) ∧
      (∀ k, k < [(5 : ℚ), 6, 4].length - 1 →
        ((buildStages [5, 6, 4] 0.75).map XfadeStage.offset).getD k 0 =
          ([(5 : ℚ), 6, 4].take (k + 1)).sum - ((k : ℚ) + 1) * 0.75) ∧
      chainOutputDuration [5, 6, 4] 0.75 =
        [(5 : ℚ), 6, 4].sum - (([(5 : ℚ), 6, 4].length : ℚ) - 1) * 0.75) :=
  ⟨⟨by norm_num [buildStages, goStages],
    by norm_num [chainOutputDuration, buildStages, goStages, List.getLastD_cons]⟩,
   xfade_offset_law [5, 6, 4] 0.75 (by norm_num)⟩

/-! ### C3: there is no end_sec > start_sec validation -/

theorem runExtractLoop_mem (ffmpegOk : FfmpegCall → Bool)
    (input_video ass_file clips_dir : String) :
    ∀ (l₁ : List Segment) (s : Segment) (l₂ : List Segment) (i : Nat),
      (∀ ts ∈ l₁, ∀ j, ffmpegOk (extractCall input_video ass_file clips_dir j ts) = true) →
      Effect.runFfmpeg (extractCall input_video ass_file clips_dir (i + l₁.length) s) ∈
        (runExtractLoop ffmpegOk input_video ass_file clips_dir i (l₁ ++ s :: l₂)).2
  | [], s, l₂, i, _ => by
    simp only [List.nil_append, runExtractLoop, List.length_nil, Nat.add_zero]
    by_cases hok : ffmpegOk (extractCall input_video ass_file clips_dir i s) = true
    · simp [hok]
    · simp [hok]
  | t :: l₁, s, l₂, i, hpre => by
    have hok := hpre t (by simp) i
    have ih := runExtractLoop_mem ffmpegOk input_video ass_file clips_dir l₁ s l₂ (i + 1)
      (fun ts hts j => hpre ts (by simp [hts]) j)
    simp only [List.cons_append, runExtractLoop, hok, if_true, List.length_cons]
    rw [show i + (l₁.length + 1) = (i + 1) + l₁.length from by omega]
    simp [ih]

/-- C3 counterexample: the claim states that a segment list containing a
segment with `end_sec <= start_sec` makes the assembly raise an
`InputValidationError` — aborting the whole run — before any external
encoder process is invoked.  At the concrete input
`[{start_sec: 5, end_sec: 3}]`, with the encoder behaving as ffmpeg does
(an inverted `-ss`/`-to` trim exits non-zero), the code does the
opposite: the encoder IS invoked on the inverted interval (the call is
in the effect trace), and the run then ends with the
`CalledProcessError` propagating from that failed invocation — not with
any validation error before it. -/
theorem no_validation_counterexample :
    Effect.runFfmpeg (.extract "in.mp4" 5 3 ("session_" ++ "S" ++ "/subtitles.ass")
        ("session_" ++ "S" ++ "/clips" ++ "/clip_" ++ toString 1 ++ ".mp4")) ∈
      (cutAndMerge (fun _ => true) ffmpegRejectsInvertedTrim "in.mp4"
        (.pylist [{ start_sec := 5, end_sec := 3, text? := none, words? := none }])
        "S" "o.mp4").2 ∧
    (cutAndMerge (fun _ => true) ffmpegRejectsInvertedTrim "in.mp4"
        (.pylist [{ start_sec := 5, end_sec := 3, text? := none, words? := none }])
        "S" "o.mp4").1 =
      .raised (.extract "in.mp4" 5 3 ("session_" ++ "S" ++ "/subtitles.ass")
        ("session_" ++ "S" ++ "/clips" ++ "/clip_" ++ toString 1 ++ ".mp4")) := by
  have hlt : ¬ ((5 : ℚ) < 3) := by norm_num
  constructor
  · simp [cutAndMerge, invalidTimestamps, runExtractLoop, extractCall,
      ffmpegRejectsInvertedTrim, hlt]
  · simp [cutAndMerge, invalidTimestamps, runExtractLoop, extractCall,
      ffmpegRejectsInvertedTrim, hlt]

/-- C3 (amended): `cut_and_merge` performs no ordering validation on its
segments: when the input video exists and the segment list contains a
segment `s` with `end_sec <= start_sec`, then as soon as the run
reaches `s` (the extractions of the segments before it succeed) the
external encoder is invoked for `s` with its inverted interval, and the
run never ends as an up-front rejection: its outcome is either a
returned output path or the `CalledProcessError` of a failed encoder
invocation — never a validation error issued before the encoder runs. -/
theorem encoder_invoked_without_validation (fs_exists : String → Bool)
    (ffmpegOk : FfmpegCall → Bool) (input_video : String)
    (l₁ : List Segment) (s : Segment) (l₂ : List Segment)
    (session_id output_name : String)
    (hfs : fs_exists input_video = true)
    (_hbad : s.end_sec ≤ s.start_sec)
    (hpre : ∀ ts ∈ l₁, ∀ j, ffmpegOk (extractCall input_video
        ("session_" ++ session_id ++ "/subtitles.ass")
        ("session_" ++ session_id ++ "/clips") j ts) = true) :
    Effect.runFfmpeg (extractCall input_video
        ("session_" ++ session_id ++ "/subtitles.ass")
        ("session_" ++ session_id ++ "/clips") (1 + l₁.length) s) ∈
      (cutAndMerge fs_exists ffmpegOk input_video (.pylist (l₁ ++ s :: l₂))
        session_id output_name).2 ∧
    (cutAndMerge fs_exists ffmpegOk input_video (.pylist (l₁ ++ s :: l₂))
        session_id output_name).1 ≠ .ret none := by
  have hmem := runExtractLoop_mem ffmpegOk input_video
    ("session_" ++ session_id ++ "/subtitles.ass")
    ("session_" ++ session_id ++ "/clips") l₁ s l₂ 1 hpre
  have hne : invalidTimestamps (.pylist (l₁ ++ s :: l₂)) = false := by
    simp [invalidTimestamps]
  simp only [cutAndMerge, hfs, hne, Bool.false_eq_true, Bool.true_eq_false, if_false]
  constructor
  · split
    · simp [hmem]
    · split <;> simp [hmem]
  · split
    · simp
    · split <;> simp

/-- C3 amended witness: with a fully succeeding encoder, the concrete
bad run `[{start: 5, end: 3}]` still has the encoder invoked on the
inverted segment and is not rejected. -/
theorem encoder_invoked_without_validation_witness :
    Effect.runFfmpeg (extractCall "in.mp4"
        ("session_" ++ "T" ++ "/subtitles.ass")
        ("session_" ++ "T" ++ "/clips") (1 + List.length ([] : List Segment))
        { start_sec := 5, end_sec := 3, text? := none, words? := none }) ∈
      (cutAndMerge (fun _ => true) (fun _ => true) "in.mp4"
        (.pylist ([] ++ { start_sec := 5, end_sec := 3, text? := none, words? := none } :: []))
        "T" "o.mp4").2 ∧
    (cutAndMerge (fun _ => true) (fun _ => true) "in.mp4"
        (.pylist ([] ++ { start_sec := 5, end_sec := 3, text? := none, words? := none } :: []))
        "T" "o.mp4").1 ≠ .ret none :=
  encoder_invoked_without_validation (fun _ => true) (fun _ => true) "in.mp4"
    [] { start_sec := 5, end_sec := 3, text? := none, words? := none } []
    "T" "o.mp4" rfl (by norm_num) (by intro ts hts j; simp at hts)

/-! ### C1: caption cues are burned with absolute, not clip-local, times -/

/-- C1: the claim (and spec section 4.2) requires the extraction stage to
re-express each burned cue's start/end as `cue_time - segment.start_sec`
before rendering onto the trimmed clip.  The code does not: evaluated at
the segment `[10, 16]` carrying the word `[10.333, 10.866]`, the
generated ASS track holds the cue at absolute time 10.333, that same
unshifted track is what the extraction invocation burns onto the clip
trimmed to begin at 10 (whose internal origin is 0), and
`10.333 ≠ 10.333 - 10`.  (`cut_and_merge` even computes
`subtitle_offset = ts["start_sec"]` and then never uses it.) -/
theorem caption_burn_absolute_not_relative :
    (generate_karaoke_ass_file
        [{ start_sec := 10, end_sec := 16, text? := some "hello",
           words? := some [{ word? := some "hello", start? := some 10.333,
                             stop? := some 10.866 }] }]).map Cue.start_sec
      = [(10.333 : ℚ)] ∧
    Effect.writeAss ("session_" ++ "S" ++ "/subtitles.ass")
        (generate_karaoke_ass_file
          [{ start_sec := 10, end_sec := 16, text? := some "hello",
             words? := some [{ word? := some "hello", start? := some 10.333,
                               stop? := some 10.866 }] }]) ∈
      (cutAndMerge (fun _ => true) (fun _ => true) "in.mp4"
        (.pylist [{ start_sec := 10, end_sec := 16, text? := some "hello",
                    words? := some [{ word? := some "hello", start? := some 10.333,
                                      stop? := some 10.866 }] }])
        "S" "o.mp4").2 ∧
    Effect.runFfmpeg (.extract "in.mp4" 10 16 ("session_" ++ "S" ++ "/subtitles.ass")
        ("session_" ++ "S" ++ "/clips" ++ "/clip_" ++ toString 1 ++ ".mp4")) ∈
      (cutAndMerge (fun _ => true) (fun _ => true) "in.mp4"
        (.pylist [{ start_sec := 10, end_sec := 16, text? := some "hello",
                    words? := some [{ word? := some "hello", start? := some 10.333,
                                      stop? := some 10.866 }] }])
        "S" "o.mp4").2 ∧
    (10.333 : ℚ) ≠ 10.333 - 10 := by
  refine ⟨?_, ?_, ?_, ?_⟩
  · simp [generate_karaoke_ass_file, clipCues, windowCues, cueOf, windowStart]
  · simp [cutAndMerge, invalidTimestamps, runExtractLoop, extractCall]
  · simp [cutAndMerge, invalidTimestamps, runExtractLoop, extractCall]
  · norm_num

/-! ### C8: selector-output sanitisation and fail-closed parsing -/

theorem mem_dropBOM {c : Char} {l : List Char} (h : c ∈ dropBOM l) : c ∈ l := by
  cases l with
  | nil => simp [dropBOM] at h
  | cons a rest =>
    by_cases ha : a = '\uFEFF'
    · simp only [dropBOM, ha, if_pos] at h
      simp [h]
    · simp only [dropBOM, ha, if_false] at h
      exact h

theorem mem_pyStrip {c : Char} {l : List Char} (h : c ∈ pyStrip l) : c ∈ l := by
  unfold pyStrip at h
  rw [List.mem_reverse] at h
  have h1 : c ∈ (l.dropWhile pyIsSpace).reverse :=
    List.Sublist.mem h (List.dropWhile_sublist _)
  rw [List.mem_reverse] at h1
  exact List.Sublist.mem h1 (List.dropWhile_sublist _)

/-- C8: sanitisation removes every backtick (and with it any markdown
code-fence wrapper), every non-printable character other than newline,
carriage return and tab, and any leading byte-order mark; parsing then
hands exactly the sanitised string to the JSON parser, returns `None`
whenever that parse fails, and otherwise returns exactly the parser's
value — never a partial or default segment list. -/
theorem sanitize_parse_law {α : Type} (isprintable : Char → Bool)
    (loads : String → Option α) (s : String)
    (hBOM : isprintable '\uFEFF' = false) :
    (∀ c ∈ (sanitize_json_string isprintable s).data, c ≠ '\x60') ∧
    (∀ c ∈ (sanitize_json_string isprintable s).data,
      isprintable c = true ∨ c = '\n' ∨ c = '\r' ∨ c = '\t') ∧
    (sanitize_json_string isprintable s).data.head? ≠ some '\uFEFF' ∧
    (loads (sanitize_json_string isprintable s) = none →
      parse_json_safely isprintable loads s = none) ∧
    (∀ v, parse_json_safely isprintable loads s = some v →
      loads (sanitize_json_string isprintable s) = some v) := by
  have hchars : ∀ c ∈ (sanitize_json_string isprintable s).data,
      c ≠ '\x60' ∧ (isprintable c = true ∨ c = '\n' ∨ c = '\r' ∨ c = '\t') := by
    intro c hc
    by_cases hs : s = ""
    · rw [sanitize_json_string, if_pos hs, hs] at hc
      exact absurd hc (by simp [show ("" : String).data = [] from rfl])
    · rw [sanitize_json_string, if_neg hs] at hc
      have hc' : c ∈ pyStrip (dropBOM (filterPrintable isprintable
          (removeBackticks (stripFences s.data)))) := hc
      have h2 := mem_dropBOM (mem_pyStrip hc')
      rw [filterPrintable, List.mem_filter] at h2
      obtain ⟨h3, h4⟩ := h2
      rw [removeBackticks, List.mem_filter] at h3
      refine ⟨by simpa using h3.2, ?_⟩
      simpa [Bool.or_eq_true, decide_eq_true_eq, or_assoc] using h4
  refine ⟨fun c hc => (hchars c hc).1, fun c hc => (hchars c hc).2, ?_, ?_, ?_⟩
  · intro hhead
    have hmem : '\uFEFF' ∈ (sanitize_json_string isprintable s).data := by
      cases hh : (sanitize_json_string isprintable s).data with
      | nil => rw [hh] at hhead; simp at hhead
      | cons a rest =>
        rw [hh] at hhead
        simp only [List.head?_cons, Option.some.injEq] at hhead
        simp [hh, hhead]
    rcases (hchars _ hmem).2 with h | h | h | h
    · rw [hBOM] at h; exact absurd h (by simp)
    · exact absurd h (by decide)
    · exact absurd h (by decide)
    · exact absurd h (by decide)
  · intro hnone
    rw [parse_json_safely]
    by_cases hs : s = ""
    · rw [if_pos hs]
    · rw [if_neg hs]; exact hnone
  · intro v hv
    rw [parse_json_safely] at hv
    by_cases hs : s = ""
    · rw [if_pos hs] at hv; exact absurd hv (by simp)
    · rw [if_neg hs] at hv; exact hv

/-- C8 witness: with printable-ASCII as the printability predicate, the
fenced selector output ```` ```json\n[1]\n``` ```` sanitises to exactly
`[1]`; a parser recognising `[1]` then succeeds through
`parse_json_safely`, and the fail-closed implication of the law holds at
this concrete input. -/
theorem sanitize_parse_law_witness :
    sanitize_json_string (fun c => decide (c.toNat ≤ 126)) "```json\n[1]\n```" = "[1]" ∧
    parse_json_safely (fun c => decide (c.toNat ≤ 126))
      (fun str => if str = "[1]" then some (1 : Nat) else none) "```json\n[1]\n```" = some 1 ∧
    ((fun str => if str = "[1]" then some (1 : Nat) else none)
        (sanitize_json_string (fun c => decide (c.toNat ≤ 126)) "```json\n[1]\n```") = none →
      parse_json_safely (fun c => decide (c.toNat ≤ 126))
        (fun str => if str = "[1]" then some (1 : Nat) else none) "```json\n[1]\n```" = none) :=
  ⟨by decide, by decide,
   (sanitize_parse_law (fun c => decide (c.toNat ≤ 126))
     (fun str => if str = "[1]" then some (1 : Nat) else none)
     "```json\n[1]\n```" (by decide)).2.2.2.1⟩

/-! ### C5: 3-word window partition, cue times, and monotonicity -/

theorem windows3_join {α : Type} : ∀ (l : List α), (windows3 l).flatten = l
  | [] => by simp [windows3]
  | [a] => by simp [windows3]
  | [a, b] => by simp [windows3]
  | a :: b :: c :: rest => by
    simp only [windows3, List.flatten_cons]
    rw [windows3_join rest]
    simp

theorem windows3_sizes {α : Type} : ∀ (l : List α), ∀ win ∈ windows3 l, win ≠ [] ∧ win.length ≤ 3
  | [] => by simp [windows3]
  | [a] => by simp [windows3]
  | [a, b] => by simp [windows3]
  | a :: b :: c :: rest => by
    intro win hwin
    simp only [windows3, List.mem_cons] at hwin
    rcases hwin with rfl | hwin
    · simp
    · exact windows3_sizes rest win hwin

theorem windows3_ne_nil {α : Type} (l : List α) (h : l ≠ []) : windows3 l ≠ [] := by
  match l with
  | [] => exact absurd rfl h
  | [a] => simp [windows3]
  | [a, b] => simp [windows3]
  | a :: b :: c :: rest => simp [windows3]

theorem windows3_dropLast_sizes {α : Type} :
    ∀ (l : List α), ∀ win ∈ (windows3 l).dropLast, win.length = 3
  | [] => by simp [windows3]
  | [a] => by simp [windows3]
  | [a, b] => by simp [windows3]
  | a :: b :: c :: rest => by
    intro win hwin
    by_cases hr : rest = []
    · subst hr; simp [windows3] at hwin
    · have hne := windows3_ne_nil rest hr
      rw [show windows3 (a :: b :: c :: rest) = [a, b, c] :: windows3 rest from rfl] at hwin
      rw [List.dropLast_cons_of_ne_nil hne] at hwin
      rcases List.mem_cons.mp hwin with rfl | hwin'
      · rfl
      · exact windows3_dropLast_sizes rest win hwin'

theorem windowCues_length (clip : Segment) :
    ∀ (l : List Word), (windowCues clip l).length = (l.length + 2) / 3
  | [] => by simp [windowCues]
  | [w] => by simp [windowCues]
  | [w1, w2] => by simp [windowCues]
  | w1 :: w2 :: w3 :: rest => by
    simp only [windowCues, List.length_cons]
    rw [windowCues_length clip rest]
    omega

theorem opt_eq_some_getD {o : Option ℚ} (h : o.isSome = true) (d : ℚ) :
    o = some (o.getD d) := by
  cases o
  · simp at h
  · simp

theorem getD_eq_of_isSome {o : Option ℚ} (h : o.isSome = true) (a b : ℚ) :
    o.getD a = o.getD b := by
  cases o
  · simp at h
  · simp

theorem windowCues_forall₂ (clip : Segment) :
    ∀ (l : List Word), (∀ w ∈ l, timed w = true) →
      List.Forall₂ (fun (c : Cue) (win : List Word) =>
          win.head?.bind Word.start? = some c.start_sec ∧
          win.getLast?.bind Word.stop? = some c.end_sec)
        (windowCues clip l) (windows3 l)
  | [], _ => by simp [windowCues, windows3]
  | [w1], ht => by
    have h1 := ht w1 (by simp)
    rw [timed, Bool.and_eq_true] at h1
    refine List.Forall₂.cons ⟨?_, ?_⟩ List.Forall₂.nil
    · simp only [windowCues, List.head?_cons, Option.some_bind, cueOf, windowStart]
      exact opt_eq_some_getD h1.1 _
    · simp only [windowCues, cueOf, windowEnd, List.getLast?_singleton, Option.some_bind]
      exact opt_eq_some_getD h1.2 _
  | [w1, w2], ht => by
    have h1 := ht w1 (by simp)
    have h2 := ht w2 (by simp)
    rw [timed, Bool.and_eq_true] at h1 h2
    refine List.Forall₂.cons ⟨?_, ?_⟩ List.Forall₂.nil
    · simp only [windowCues, List.head?_cons, Option.some_bind, cueOf, windowStart]
      exact opt_eq_some_getD h1.1 _
    · have hlast : [w1, w2].getLast? = some w2 := rfl
      simp only [windowCues, cueOf, windowEnd, hlast, Option.some_bind]
      exact opt_eq_some_getD h2.2 _
  | w1 :: w2 :: w3 :: rest, ht => by
    have h1 := ht w1 (by simp)
    have h3 := ht w3 (by simp)
    rw [timed, Bool.and_eq_true] at h1 h3
    refine List.Forall₂.cons ⟨?_, ?_⟩
      (windowCues_forall₂ clip rest (fun w hw => ht w (by simp [hw])))
    · simp only [windowCues, List.head?_cons, Option.some_bind, cueOf, windowStart]
      exact opt_eq_some_getD h1.1 _
    · have hlast : [w1, w2, w3].getLast? = some w3 := rfl
      simp only [windowCues, cueOf, windowEnd, hlast, Option.some_bind]
      exact opt_eq_some_getD h3.2 _

theorem windowCues_head_start (clip : Segment) :
    ∀ (r1 : Word) (rest' : List Word),
      ((windowCues clip (r1 :: rest')).map Cue.start_sec).head? =
        some (r1.start?.getD clip.start_sec)
  | r1, [] => by simp [windowCues, cueOf, windowStart]
  | r1, [r2] => by simp [windowCues, cueOf, windowStart]
  | r1, r2 :: r3 :: t => by simp [windowCues, cueOf, windowStart]

theorem windowCues_head_end (clip : Segment) :
    ∀ (r1 : Word) (rest' : List Word),
      ∃ b, b ∈ r1 :: rest' ∧
        ((windowCues clip (r1 :: rest')).map Cue.end_sec).head? =
          some (b.stop?.getD clip.end_sec)
  | r1, [] => ⟨r1, by simp, by simp [windowCues, cueOf, windowEnd]⟩
  | r1, [r2] => ⟨r2, by simp, by simp [windowCues, cueOf, windowEnd]⟩
  | r1, r2 :: r3 :: t => ⟨r3, by simp, by simp [windowCues, cueOf, windowEnd]⟩

theorem windowCues_chain_start (clip : Segment) :
    ∀ (l : List Word), (∀ w ∈ l, timed w = true) → l.Pairwise startLe →
      ((windowCues clip l).map Cue.start_sec).Chain' (· ≤ ·)
  | [], _, _ => by simp [windowCues]
  | [w1], _, _ => by simp [windowCues]
  | [w1, w2], _, _ => by simp [windowCues]
  | w1 :: w2 :: w3 :: rest, ht, hp => by
    have ih := windowCues_chain_start clip rest (fun w hw => ht w (by simp [hw]))
      hp.of_cons.of_cons.of_cons
    rw [show windowCues clip (w1 :: w2 :: w3 :: rest) =
      cueOf clip [w1, w2, w3] :: windowCues clip rest from rfl]
    simp only [List.map_cons]
    rw [List.chain'_cons']
    refine ⟨?_, ih⟩
    intro b hb
    cases rest with
    | nil => simp [windowCues] at hb
    | cons r1 rest' =>
      rw [windowCues_head_start clip r1 rest'] at hb
      simp only [Option.mem_some_iff] at hb
      subst hb
      have hw1 : timed w1 = true := ht w1 (by simp)
      have hr1 : timed r1 = true := ht r1 (by simp)
      rw [timed, Bool.and_eq_true] at hw1 hr1
      have hle : startLe w1 r1 := (List.pairwise_cons.mp hp).1 r1 (by simp)
      simp only [cueOf, windowStart]
      rw [getD_eq_of_isSome hw1.1 clip.start_sec 0,
        getD_eq_of_isSome hr1.1 clip.start_sec 0]
      exact hle

theorem windowCues_chain_stop (clip : Segment) :
    ∀ (l : List Word), (∀ w ∈ l, timed w = true) → l.Pairwise stopLe →
      ((windowCues clip l).map Cue.end_sec).Chain' (· ≤ ·)
  | [], _, _ => by simp [windowCues]
  | [w1], _, _ => by simp [windowCues]
  | [w1, w2], _, _ => by simp [windowCues]
  | w1 :: w2 :: w3 :: rest, ht, hp => by
    have ih := windowCues_chain_stop clip rest (fun w hw => ht w (by simp [hw]))
      hp.of_cons.of_cons.of_cons
    rw [show windowCues clip (w1 :: w2 :: w3 :: rest) =
      cueOf clip [w1, w2, w3] :: windowCues clip rest from rfl]
    simp only [List.map_cons]
    rw [List.chain'_cons']
    refine ⟨?_, ih⟩
    intro b hb
    cases rest with
    | nil => simp [windowCues] at hb
    | cons r1 rest' =>
      obtain ⟨bw, hbw_mem, hbw⟩ := windowCues_head_end clip r1 rest'
      rw [hbw] at hb
      simp only [Option.mem_some_iff] at hb
      subst hb
      have hw3 : timed w3 = true := ht w3 (by simp)
      have hbw_t : timed bw = true := ht bw (by simp [List.mem_cons.mp hbw_mem])
      rw [timed, Bool.and_eq_true] at hw3 hbw_t
      have hle : stopLe w3 bw :=
        (List.pairwise_cons.mp hp.of_cons.of_cons).1 bw hbw_mem
      simp only [cueOf, windowEnd]
      rw [getD_eq_of_isSome hw3.2 clip.end_sec 0,
        getD_eq_of_isSome hbw_t.2 clip.end_sec 0]
      exact hle

/-- C5 counterexample: the claim asserts unconditionally non-decreasing
cue start/end times.  `sampleWordsBad` is admissible input — every word
timed, start times non-decreasing (the section-3 data-model invariant),
all times inside the segment — yet the code's cue end times are
`[9, 4]`: the window `[c]` ends at 4 before the window `[a,b,c]`'s end
9, so the emitted cue end times decrease and the claim as stated is
false. -/
theorem karaoke_nonmonotone_counterexample :
    (∀ w ∈ sampleWordsBad, timed w = true) ∧
    sampleWordsBad.Pairwise startLe ∧
    (clipCues sampleClipBad).map Cue.end_sec = [9, 4] ∧
    ¬ (((clipCues sampleClipBad).map Cue.end_sec).Chain' (· ≤ ·)) := by
  have hmap : (clipCues sampleClipBad).map Cue.end_sec = [9, 4] := by
    norm_num [sampleClipBad, sampleWordsBad, clipCues, windowCues, cueOf,
      windowStart, windowEnd]
  refine ⟨?_, ?_, hmap, ?_⟩
  · intro w hw
    fin_cases hw <;> rfl
  · norm_num [sampleWordsBad, List.pairwise_cons, startLe]
  · rw [hmap]
    simp only [List.chain'_cons, List.chain'_singleton, and_true]
    norm_num

/-- C5 (amended): for a segment carrying at least one word-timed word
(all words timed, word start times non-decreasing as the data model
requires), the generator partitions the words into consecutive
non-overlapping windows (concatenating the windows restores the word
list, so no word repeats), every window is nonempty with at most 3
words and every window but the last has exactly 3, it emits exactly
`(k + 2) / 3 = ceil(k/3)` cues, each cue starts at its window's first
word's start time and ends at its last word's end time, and cue start
times are non-decreasing; cue end times are non-decreasing under the
additional assumption — not guaranteed by the data model — that the
word end times are non-decreasing. -/
theorem karaoke_windows_law (clip : Segment) (ws : List Word)
    (hw : clip.words? = some ws) (hne : ws ≠ [])
    (ht : ∀ w ∈ ws, timed w = true) (hstart : ws.Pairwise startLe) :
    (windows3 ws).flatten = ws ∧
    (∀ win ∈ windows3 ws, win ≠ [] ∧ win.length ≤ 3) ∧
    (∀ win ∈ (windows3 ws).dropLast, win.length = 3) ∧
    (clipCues clip).length = (ws.length + 2) / 3 ∧
    List.Forall₂ (fun (c : Cue) (win : List Word) =>
        win.head?.bind Word.start? = some c.start_sec ∧
        win.getLast?.bind Word.stop? = some c.end_sec)
      (clipCues clip) (windows3 ws) ∧
    ((clipCues clip).map Cue.start_sec).Chain' (· ≤ ·) ∧
    (ws.Pairwise stopLe → ((clipCues clip).map Cue.end_sec).Chain' (· ≤ ·)) := by
  have hcc : clipCues clip = windowCues clip ws := by
    cases ws with
    | nil => exact absurd rfl hne
    | cons a l => simp [clipCues, hw]
  exact ⟨windows3_join ws, windows3_sizes ws, windows3_dropLast_sizes ws,
    by rw [hcc]; exact windowCues_length clip ws,
    by rw [hcc]; exact windowCues_forall₂ clip ws ht,
    by rw [hcc]; exact windowCues_chain_start clip ws ht hstart,
    fun hstop => by rw [hcc]; exact windowCues_chain_stop clip ws ht hstop⟩

/-- C5 witness: a segment with 4 timed words at `[0,1] [1,2] [2,3] [3,4]`
satisfies the window law: 2 windows (`ceil(4/3) = 2` cues), first window
of exactly 3 words, flattening restores the words, cue times taken from
the window edge words, monotone cue start times, and — its end times
being monotone too — monotone cue end times. -/
theorem karaoke_windows_law_witness :
    (windows3 sampleWords).flatten = sampleWords ∧
    (∀ win ∈ windows3 sampleWords, win ≠ [] ∧ win.length ≤ 3) ∧
    (∀ win ∈ (windows3 sampleWords).dropLast, win.length = 3) ∧
    (clipCues sampleClip).length = (sampleWords.length + 2) / 3 ∧
    List.Forall₂ (fun (c : Cue) (win : List Word) =>
        win.head?.bind Word.start? = some c.start_sec ∧
        win.getLast?.bind Word.stop? = some c.end_sec)
      (clipCues sampleClip) (windows3 sampleWords) ∧
    ((clipCues sampleClip).map Cue.start_sec).Chain' (· ≤ ·) ∧
    (sampleWords.Pairwise stopLe →
      ((clipCues sampleClip).map Cue.end_sec).Chain' (· ≤ ·)) :=
  karaoke_windows_law sampleClip sampleWords rfl (by simp [sampleWords])
    (by intro w hw; fin_cases hw <;> rfl)
    (by norm_num [sampleWords, List.pairwise_cons, startLe])

end ShortMaker
